import Mathlib

/-!
# Verification of the device-memory suballocation layer

Shallow embedding of the buffer suballocator (`src/renderer/buffer.cpp`,
class `RenderBuffer`) and of the image memory pool allocator
(`src/renderer/image.cpp`, classes `ImagePool` and `ImageMemoryAllocator`).

Modelling conventions:
* Device memory content is modelled as a total function `ℕ → ℕ` (byte at each
  offset); freshly allocated device memory is modelled as all zeroes.
* Device allocation never fails in the model (a failed `vkAllocateMemory` is an
  unrecoverable abort in the source, not a state transition).
* `size_t` quantities are modelled as `ℕ` with exact arithmetic.  The one place
  where unsigned two's-complement wrap-around is semantically significant is
  the subtraction `size - buffer_data.size` in `RenderBuffer::resuballoc`
  (`buffer.cpp:150`), which can borrow when the new size is smaller; there the
  computation is carried out in `ℤ` and converted back with `Int.toNat`.  On
  every state satisfying the contiguity invariant (`ContigP`, proved below for
  all reachable states) the integer results coincide exactly with the machine's
  mod-2^64 results, because no intermediate final value is negative.
* Exceptions (`std::runtime_error`) are modelled with `Except RBError`; the
  distinct throw sites of `buffer.cpp` get distinct error constructors.
* The Vulkan handle plumbing (command buffers, queues, `vk::Buffer` objects)
  carries no allocator state and is omitted; `copy_to_offset` keeps exactly its
  observable effect: bounds check, implicit resize of the target, byte copy.
* A `SubBuffer` handle is a C `int`; it is modelled as `ℤ`.  In
  `check_subbuffer` (`buffer.cpp:188`) the comparison
  `buffer >= subbuffers_.size()` converts the `int` to `size_t`, so every
  negative handle compares as out of range; the model makes this explicit.
-/

namespace VkAlloc

/-- `round_up` from `src/util.h`: round `val` up to the next multiple of
`multiple` (identity when `multiple = 0` or `val` is already a multiple). -/
def round_up (val multiple : ℕ) : ℕ :=
  if multiple = 0 then val
  else if val % multiple = 0 then val
  else val + (multiple - val % multiple)

/-- Error kinds for the distinct `std::runtime_error` throw sites of
`buffer.cpp`. -/
inductive RBError where
  /-- "Invalid subbuffer index." (`check_subbuffer`, buffer.cpp:189) -/
  | invalidHandle
  /-- "Buffer is not host visible." (`copy`/`copy_raw`) -/
  | notHostVisible
  /-- "Pop length longer than filled." (`pop`) -/
  | underflow
  /-- "Remove length longer than filled." (`remove`) -/
  | rangeError
  /-- "SubBuffer copy length too large." (`copy_to_offset`) -/
  | copyTooLarge
  deriving DecidableEq, Repr

/-- `RenderBuffer::SubBufferData` (buffer.h): bytes reserved, byte offset
inside the backing allocation, bytes currently written. -/
structure SubBufferData where
  size : ℕ
  offset : ℕ
  filled : ℕ
  deriving DecidableEq, Repr

instance : Inhabited SubBufferData := ⟨⟨0, 0, 0⟩⟩

/-- The observable state of a `RenderBuffer`: backing length `length_`, the
suballocation alignment `offset_alignment_`, host visibility, the bytes of the
backing device memory, the record vector `subbuffers_` and the recycle set
`recycle_` (a `std::set<int>`; only indices validated by `check_subbuffer` are
ever inserted, so it is modelled as a `Finset ℕ`). -/
structure RenderBuffer where
  length : ℕ
  alignment : ℕ
  hostVisible : Bool
  mem : ℕ → ℕ
  subbuffers : List SubBufferData
  recycle : Finset ℕ

/-- The `RenderBuffer` constructor (buffer.cpp:3): stores the requested
length, queries the alignment, starts with no subbuffers and an empty recycle
set; fresh device memory is modelled as zero bytes. -/
def mkRenderBuffer (length alignment : ℕ) (hostVisible : Bool) : RenderBuffer :=
  { length := length, alignment := alignment, hostVisible := hostVisible,
    mem := fun _ => 0, subbuffers := [], recycle := ∅ }

/-- The record at index `i` (out-of-range reads, which the source never
performs on validated handles, default to the zero record). -/
def RenderBuffer.recAt (st : RenderBuffer) (i : ℕ) : SubBufferData :=
  st.subbuffers.getD i default

/-- `RenderBuffer::resize` (buffer.cpp:120): bounce the `length_` old bytes
through a temporary buffer into a fresh allocation of `round_up(size,
offset_alignment_)` bytes.  The two `copy_to_offset` bounces compose to: old
bytes below the old length are preserved, bytes above come from the fresh
(zero) allocation.  Records are untouched. -/
def RenderBuffer.resize (st : RenderBuffer) (size : ℕ) : RenderBuffer :=
  { st with
    length := round_up size st.alignment,
    mem := fun i => if i < st.length then st.mem i else 0 }

/-- `RenderBuffer::copy_to_offset` (buffer.cpp:87): device copy of `len` bytes
from `src` at `srcOff` into `tgt` at `dstOff`.  Throws when the source range
overruns the source; grows the target first when the destination range
overruns the target. -/
def RenderBuffer.copy_to_offset (src tgt : RenderBuffer) (len srcOff dstOff : ℕ) :
    Except RBError RenderBuffer :=
  if len + srcOff > src.length then .error .copyTooLarge
  else
    let tgt1 := if len + dstOff > tgt.length then tgt.resize (len + dstOff) else tgt
    .ok { tgt1 with mem := fun i =>
            if dstOff ≤ i ∧ i < dstOff + len then src.mem (srcOff + (i - dstOff))
            else tgt1.mem i }

/-- `RenderBuffer::check_subbuffer` (buffer.cpp:187) succeeds: the handle,
converted from `int` to `size_t`, is in range (so nonnegative) and not in the
recycle set. -/
def RenderBuffer.validHandle (st : RenderBuffer) (h : ℤ) : Prop :=
  0 ≤ h ∧ h.toNat < st.subbuffers.length ∧ h.toNat ∉ st.recycle

instance (st : RenderBuffer) (h : ℤ) : Decidable (st.validHandle h) := by
  unfold RenderBuffer.validHandle; infer_instance

/-- `RenderBuffer::get_offset` (buffer.cpp:205). -/
def RenderBuffer.get_offset (st : RenderBuffer) (h : ℤ) : Except RBError ℕ :=
  if st.validHandle h then .ok (st.recAt h.toNat).offset else .error .invalidHandle

/-- `RenderBuffer::get_subfill` (buffer.cpp:210). -/
def RenderBuffer.get_subfill (st : RenderBuffer) (h : ℤ) : Except RBError ℕ :=
  if st.validHandle h then .ok (st.recAt h.toNat).filled else .error .invalidHandle

/-- `RenderBuffer::get_subsize` (buffer.cpp:215). -/
def RenderBuffer.get_subsize (st : RenderBuffer) (h : ℤ) : Except RBError ℕ :=
  if st.validHandle h then .ok (st.recAt h.toNat).size else .error .invalidHandle

/-- End of the last record, `last.offset + last.size` as read by
`suballoc`/`resuballoc` via `subbuffers_.back()` (`0` for an empty vector). -/
def lastEnd (l : List SubBufferData) : ℕ :=
  (l.getLast?.getD default).offset + (l.getLast?.getD default).size

/-- `RenderBuffer::suballoc` (buffer.cpp:227).  If the recycle set is
non-empty, pop `*recycle_.begin()` — the minimum of the `std::set` — and
return it with the records untouched.  Otherwise append a record of the
rounded size at the end of the sequence and grow the backing allocation if it
now overruns.  Returns the new state and the returned `SubBuffer` (an `int`). -/
def RenderBuffer.suballoc (st : RenderBuffer) (reqSize : ℕ) : RenderBuffer × ℤ :=
  if hne : st.recycle.Nonempty then
    let id := st.recycle.min' hne
    ({ st with recycle := st.recycle.erase id }, (id : ℤ))
  else
    let size := round_up reqSize st.alignment
    if st.subbuffers.isEmpty then
      let st1 := { st with subbuffers := [⟨size, 0, 0⟩] }
      let st2 := if size > st1.length then st1.resize size else st1
      (st2, 0)
    else
      let last := st.subbuffers.getLast?.getD default
      let offset := last.offset + last.size
      let st1 := { st with subbuffers := st.subbuffers ++ [⟨size, offset, 0⟩] }
      let st2 := if offset + size > st1.length then st1.resize (offset + size) else st1
      (st2, (st.subbuffers.length : ℤ))

/-- Offset shift applied to every record after the re-suballocated one
(`subbuffers_[i].offset += shift` in buffer.cpp:164, a `size_t` addition; on
contiguous states the integer value is never negative). -/
def shiftedTail (shift : ℤ) (l : List SubBufferData) : List SubBufferData :=
  l.map fun r => { r with offset := ((r.offset : ℤ) + shift).toNat }

/-- Body of `RenderBuffer::resuballoc` (buffer.cpp:145) after the handle
check: round the size, compute the (possibly borrowing) `size_t` shift,
grow the backing allocation when the shifted end overruns it, set the new
record size, shift the offsets of all later records, and bounce the tail
bytes through a temporary `RenderBuffer` of exactly the tail length. -/
def RenderBuffer.resuballocCore (st : RenderBuffer) (b : ℕ) (reqSize : ℕ) :
    Except RBError RenderBuffer :=
  let size := round_up reqSize st.alignment
  let cur := (st.subbuffers.getD b default).size
  let shift : ℤ := (size : ℤ) - (cur : ℤ)
  let last := st.subbuffers.getLast?.getD default
  let newSize : ℤ := (last.offset : ℤ) + (last.size : ℤ) + shift
  let st1 := if newSize > (st.length : ℤ) then st.resize newSize.toNat else st
  let subs := st1.subbuffers.take b
      ++ [{ st1.subbuffers.getD b default with size := size }]
      ++ shiftedTail shift (st1.subbuffers.drop (b + 1))
  let shiftLength := ((st1.subbuffers.drop (b + 1)).map SubBufferData.size).sum
  let st2 := { st1 with subbuffers := subs }
  if shiftLength ≠ 0 then do
    let next := subs.getD (b + 1) default
    let temp0 := mkRenderBuffer shiftLength st.alignment st.hostVisible
    let temp1 ← RenderBuffer.copy_to_offset st2 temp0 shiftLength
        ((next.offset : ℤ) - shift).toNat 0
    RenderBuffer.copy_to_offset temp1 st2 shiftLength 0 next.offset
  else .ok st2

/-- `RenderBuffer::resuballoc` (buffer.cpp:145): handle check, then the core. -/
def RenderBuffer.resuballoc (st : RenderBuffer) (h : ℤ) (reqSize : ℕ) :
    Except RBError RenderBuffer :=
  if st.validHandle h then st.resuballocCore h.toNat reqSize
  else .error .invalidHandle

/-- `RenderBuffer::delete_subbuffer` (buffer.cpp:341): zero the fill and put
the index into the recycle set. -/
def RenderBuffer.delete_subbuffer (st : RenderBuffer) (h : ℤ) :
    Except RBError RenderBuffer :=
  if st.validHandle h then
    .ok { st with
          subbuffers := (st.subbuffers.set h.toNat { st.recAt h.toNat with filled := 0 }),
          recycle := insert h.toNat st.recycle }
  else .error .invalidHandle

/-- `RenderBuffer::pop` (buffer.cpp:328): `filled -= length`, underflow
checked. -/
def RenderBuffer.pop (st : RenderBuffer) (h : ℤ) (len : ℕ) :
    Except RBError RenderBuffer :=
  if st.validHandle h then
    if len > (st.recAt h.toNat).filled then .error .underflow
    else .ok { st with subbuffers := (st.subbuffers.set h.toNat
                 { st.recAt h.toNat with filled := (st.recAt h.toNat).filled - len }) }
  else .error .invalidHandle

/-- `RenderBuffer::clear` (buffer.cpp:336): `filled = 0`. -/
def RenderBuffer.clear (st : RenderBuffer) (h : ℤ) : Except RBError RenderBuffer :=
  if st.validHandle h then
    .ok { st with subbuffers := (st.subbuffers.set h.toNat
            { st.recAt h.toNat with filled := 0 }) }
  else .error .invalidHandle

/-- `RenderBuffer::copy` (buffer.cpp:255): host-side append of `len` bytes of
`data` at `offset + filled`, growing the subbuffer first when it would
overflow; `filled += len`. -/
def RenderBuffer.copy (st : RenderBuffer) (h : ℤ) (data : ℕ → ℕ) (len : ℕ) :
    Except RBError RenderBuffer := do
  if st.validHandle h then
    if st.hostVisible = false then .error .notHostVisible
    else
      let bd := st.recAt h.toNat
      let st1 ← if len + bd.filled > bd.size
        then st.resuballocCore h.toNat (len + bd.filled)
        else pure st
      let bd1 := st1.recAt h.toNat
      .ok { st1 with
            mem := fun i =>
              if bd1.offset + bd1.filled ≤ i ∧ i < bd1.offset + bd1.filled + len
              then data (i - (bd1.offset + bd1.filled)) else st1.mem i,
            subbuffers := (st1.subbuffers.set h.toNat
              { bd1 with filled := bd1.filled + len }) }
  else .error .invalidHandle

/-- `RenderBuffer::copy_raw` (buffer.cpp:291): host-side write at an absolute
offset, resizing the backing allocation if it overruns. -/
def RenderBuffer.copy_raw (st : RenderBuffer) (data : ℕ → ℕ) (len off : ℕ) :
    Except RBError RenderBuffer :=
  if st.hostVisible = false then .error .notHostVisible
  else
    let st1 := if off + len > st.length then st.resize (off + len) else st
    .ok { st1 with mem := fun i =>
            if off ≤ i ∧ i < off + len then data (i - off) else st1.mem i }

/-- `RenderBuffer::remove` (buffer.cpp:301): delete `len` filled bytes at
relative offset `off`, bouncing the bytes after the removed range through a
temporary buffer; `filled -= len`. -/
def RenderBuffer.remove (st : RenderBuffer) (h : ℤ) (off len : ℕ) :
    Except RBError RenderBuffer := do
  if st.validHandle h then
    let bd := st.recAt h.toNat
    if off + len > bd.filled then .error .rangeError
    else
      let shiftStart := off + len
      let shiftLength := bd.filled - shiftStart
      let st1 ←
        if shiftLength ≠ 0 then do
          let temp0 := mkRenderBuffer shiftLength st.alignment st.hostVisible
          let temp1 ← RenderBuffer.copy_to_offset st temp0 shiftLength
              (bd.offset + shiftStart) 0
          RenderBuffer.copy_to_offset temp1 st shiftLength 0 (bd.offset + off)
        else pure st
      .ok { st1 with subbuffers := (st1.subbuffers.set h.toNat
              { st1.recAt h.toNat with filled := (st1.recAt h.toNat).filled - len }) }
  else .error .invalidHandle

/-- `RenderBuffer::copy_buffer` (buffer.cpp:272): device copy of `len` bytes
from subbuffer `hs` of `src` into subbuffer `hd` of `tgt` at its fill point,
growing the target subbuffer first when needed; returns both buffers (the
source is unchanged, aliasing of the two C++ references is not modelled). -/
def RenderBuffer.copy_buffer (src tgt : RenderBuffer) (len : ℕ) (hs hd : ℤ) :
    Except RBError (RenderBuffer × RenderBuffer) := do
  if src.validHandle hs then
    if tgt.validHandle hd then
      let sb := src.recAt hs.toNat
      let db := tgt.recAt hd.toNat
      let tgt1 ← if len + db.filled > db.size
        then tgt.resuballocCore hd.toNat (len + db.filled)
        else pure tgt
      let db1 := tgt1.recAt hd.toNat
      let tgt2 ← RenderBuffer.copy_to_offset src tgt1 len sb.offset
          (db1.offset + db1.filled)
      .ok (src, { tgt2 with subbuffers := (tgt2.subbuffers.set hd.toNat
                    { tgt2.recAt hd.toNat with
                      filled := (tgt2.recAt hd.toNat).filled + len }) })
    else .error .invalidHandle
  else .error .invalidHandle

/-! ## The image memory pool allocator (`src/renderer/image.cpp`)

An image binding carries no byte content that the pool ever moves; only the
record bookkeeping (`size`, `offset`, `filled`, the recycle set and the pool
list) is modelled.  The `vk::Image` argument is abstracted by the required
allocation size reported by `getImageMemoryRequirements`; the
`bindImageMemory` call has no effect on allocator state.  `allocate_memory`
operates on the pool list of one fixed `MemoryMeta` class (the map lookup
`memory_[memory_meta]` selects it; distinct classes never interact). -/

/-- `ImagePool`'s per-binding record (`Subbuffer` in image.cpp, with its
`filled` member always set to `0`). -/
structure ImgBinding where
  size : ℕ
  offset : ℕ
  filled : ℕ
  deriving DecidableEq, Repr

instance : Inhabited ImgBinding := ⟨⟨0, 0, 0⟩⟩

/-- The fixed backing capacity of every pool,
`capacity_ = 1024 * 1024 * 256` (image.cpp:61). -/
def poolCapacity : ℕ := 1024 * 1024 * 256

/-- Ordered insertion into a duplicate-free ascending list — the behaviour
of `std::set<int>::insert` on the set's iteration order. -/
def setInsert (x : ℕ) : List ℕ → List ℕ
  | [] => [x]
  | y :: ys => if x < y then x :: y :: ys
    else if x = y then y :: ys
    else y :: setInsert x ys

/-- State of one `ImagePool`: fixed capacity, alignment of its memory class,
binding records, recycle set (a `std::set<int>`, modelled as its ascending
iteration order; only indices of existing bindings are inserted by the
callers modelled here). -/
structure ImagePool where
  capacity : ℕ
  alignment : ℕ
  subbuffers : List ImgBinding
  recycle : List ℕ
  deriving DecidableEq

/-- The `ImagePool` constructor (image.cpp:58): fresh 256 MiB backing
allocation for a memory class with the given alignment. -/
def mkImagePool (alignment : ℕ) : ImagePool :=
  { capacity := poolCapacity, alignment := alignment, subbuffers := [], recycle := [] }

/-- `ImagePool::suballoc` (image.cpp:73) for an image whose memory requirement
is `req` bytes.  Scan the recycle set in ascending order (`std::set<int>`
iteration order) for a recycled binding with `size >= req` and pop it;
otherwise append a new binding of the rounded size at the end, returning `-1`
when it would overrun the fixed capacity. -/
def ImagePool.suballoc (p : ImagePool) (req : ℕ) : ImagePool × ℤ :=
  match p.recycle.find? (fun i => req ≤ (p.subbuffers.getD i default).size) with
  | some i => ({ p with recycle := p.recycle.erase i }, (i : ℤ))
  | none =>
    let size := round_up req p.alignment
    let offset := if p.subbuffers.isEmpty then 0
      else (p.subbuffers.getLast?.getD default).offset
           + (p.subbuffers.getLast?.getD default).size
    if offset + size > p.capacity then (p, -1)
    else ({ p with subbuffers := p.subbuffers ++ [⟨size, offset, 0⟩] },
          (p.subbuffers.length : ℤ))

/-- `ImagePool::remove` (image.cpp:114): insert the index into the recycle
set (the source performs no validation here). -/
def ImagePool.removeBinding (p : ImagePool) (i : ℕ) : ImagePool :=
  { p with recycle := setInsert i p.recycle }

/-- The pool list of one `MemoryMeta` class inside `ImageMemoryAllocator`
(the value `memory_[memory_meta]`), together with the class alignment. -/
structure ImageAllocator where
  alignment : ℕ
  pools : List ImagePool
  deriving DecidableEq

/-- The scan loop of `ImageMemoryAllocator::allocate_memory`
(image.cpp:151-158): try `suballoc` on each pool in creation order; the first
pool that returns a nonnegative index wins.  A failing `suballoc` leaves its
pool unchanged.  Returns the updated pool list, the pool index and the
binding index, or `none` when every pool fails. -/
def allocScan : List ImagePool → ℕ → Option (List ImagePool × ℕ × ℤ)
  | [], _ => none
  | p :: ps, req =>
    let r := p.suballoc req
    if r.2 ≥ 0 then some (r.1 :: ps, 0, r.2)
    else match allocScan ps req with
      | some (ps', pi, i) => some (p :: ps', pi + 1, i)
      | none => none

/-- `ImageMemoryAllocator::allocate_memory` (image.cpp:146) restricted to one
memory class: scan the existing pools; if none accepts the request, push a
fresh pool and `suballoc` into it (without re-checking the result).  Returns
the new allocator state, the pool index and the binding index of the
returned `ImageMemoryHandle`. -/
def ImageAllocator.allocate_memory (al : ImageAllocator) (req : ℕ) :
    ImageAllocator × ℕ × ℤ :=
  match allocScan al.pools req with
  | some (ps', pi, idx) => ({ al with pools := ps' }, pi, idx)
  | none =>
    let p := mkImagePool al.alignment
    let r := p.suballoc req
    ({ al with pools := al.pools ++ [r.1] }, al.pools.length, r.2)

/-- `ImageMemoryAllocator::remove_image` (image.cpp:176) restricted to one
memory class: forward to the pool's `remove`. -/
def ImageAllocator.remove_image (al : ImageAllocator) (pool idx : ℕ) : ImageAllocator :=
  { al with pools := (al.pools.set pool
      ((al.pools.getD pool (mkImagePool al.alignment)).removeBinding idx)) }

/-! ## Invariants of the record sequence -/

/-- Offset of record `i`. -/
def offAt (l : List SubBufferData) (i : ℕ) : ℕ := (l.getD i default).offset

/-- Size of record `i`. -/
def szAt (l : List SubBufferData) (i : ℕ) : ℕ := (l.getD i default).size

/-- Total reserved bytes of a record sequence. -/
def sizeSum (l : List SubBufferData) : ℕ := (l.map SubBufferData.size).sum

/-- Contiguity: every record (recycled ones included) sits exactly at the sum
of the sizes of the records before it; equivalently the first record is at
offset `0` and each next record starts where the previous one ends. -/
def ContigP (l : List SubBufferData) : Prop :=
  ∀ i, i < l.length → offAt l i = sizeSum (l.take i)

instance (l : List SubBufferData) : Decidable (ContigP l) := by
  unfold ContigP; exact Nat.decidableBallLT _ _

/-- The allocator invariant: contiguous records whose overall end fits in the
backing allocation. -/
def Inv (st : RenderBuffer) : Prop :=
  ContigP st.subbuffers ∧ lastEnd st.subbuffers ≤ st.length

instance (st : RenderBuffer) : Decidable (Inv st) := by
  unfold Inv; infer_instance

theorem le_round_up (v m : ℕ) : v ≤ round_up v m := by
  unfold round_up; split_ifs <;> omega

theorem round_up_eq_of_dvd (v m : ℕ) (h : m ∣ v) : round_up v m = v := by
  unfold round_up
  rcases Nat.eq_zero_or_pos m with hm | hm
  · simp [hm]
  · have hmod : v % m = 0 := Nat.mod_eq_zero_of_dvd h
    simp [hmod, Nat.pos_iff_ne_zero.mp hm]

theorem sizeSum_append (l1 l2 : List SubBufferData) :
    sizeSum (l1 ++ l2) = sizeSum l1 + sizeSum l2 := by
  simp [sizeSum]

theorem sizeSum_take_le (l : List SubBufferData) (k : ℕ) :
    sizeSum (l.take k) ≤ sizeSum l := by
  conv_rhs => rw [← List.take_append_drop k l]
  rw [sizeSum_append]; omega

theorem sizeSum_take_succ (l : List SubBufferData) (i : ℕ) (h : i < l.length) :
    sizeSum (l.take (i + 1)) = sizeSum (l.take i) + szAt l i := by
  rw [List.take_succ, sizeSum_append]
  simp [sizeSum, szAt, List.getElem?_eq_getElem h, List.getD_eq_getElem l default h]

theorem sizeSum_take_mono (l : List SubBufferData) (i j : ℕ) (h : i ≤ j) :
    sizeSum (l.take i) ≤ sizeSum (l.take j) := by
  obtain ⟨k, rfl⟩ := Nat.exists_eq_add_of_le h
  rw [List.take_add, sizeSum_append]; omega

theorem lastEnd_nil : lastEnd [] = 0 := rfl

theorem lastEnd_eq_offAt (l : List SubBufferData) (h : l ≠ []) :
    lastEnd l = offAt l (l.length - 1) + szAt l (l.length - 1) := by
  have hlen : 0 < l.length := List.length_pos.mpr h
  have h1 : l.length - 1 < l.length := by omega
  unfold lastEnd offAt szAt
  rw [List.getLast?_eq_getElem?, List.getElem?_eq_getElem h1,
    List.getD_eq_getElem l default h1]
  rfl

theorem lastEnd_eq_sizeSum (l : List SubBufferData) (hc : ContigP l) :
    lastEnd l = sizeSum l := by
  cases l with
  | nil => rfl
  | cons a as =>
    have hne : (a :: as) ≠ [] := by simp
    have hlen : 0 < (a :: as).length := by simp
    rw [lastEnd_eq_offAt _ hne, hc _ (by omega),
      ← sizeSum_take_succ _ _ (by omega)]
    have : (a :: as).length - 1 + 1 = (a :: as).length := by omega
    rw [this, List.take_of_length_le (le_refl _)]

theorem szAt_add_le_sizeSum (l : List SubBufferData) (b : ℕ) (hb : b < l.length) :
    szAt l b ≤ sizeSum l := by
  have h1 := sizeSum_take_succ l b hb
  have h2 := sizeSum_take_le l (b + 1)
  omega

/-- Under contiguity, record ranges in index order are orderly: for `i < j`
the end of record `i` is at most the offset of record `j`. -/
theorem contigP_ordered (l : List SubBufferData) (hc : ContigP l) (i j : ℕ)
    (hij : i < j) (hj : j < l.length) :
    offAt l i + szAt l i ≤ offAt l j := by
  have hi : i < l.length := by omega
  rw [hc i hi, hc j hj, ← sizeSum_take_succ l i hi]
  exact sizeSum_take_mono l (i + 1) j hij

theorem offAt_eq_map_getD (l : List SubBufferData) (i : ℕ) :
    offAt l i = (l.map SubBufferData.offset).getD i 0 := by
  unfold offAt
  rw [List.getD_eq_getElem?_getD, List.getD_eq_getElem?_getD, List.getElem?_map]
  cases l[i]? <;> rfl

theorem szAt_eq_map_getD (l : List SubBufferData) (i : ℕ) :
    szAt l i = (l.map SubBufferData.size).getD i 0 := by
  unfold szAt
  rw [List.getD_eq_getElem?_getD, List.getD_eq_getElem?_getD, List.getElem?_map]
  cases l[i]? <;> rfl

/-- Contiguity only looks at offsets and sizes; lists that agree on those
(e.g. differing only in `filled`) are equi-contiguous. -/
theorem contigP_congr (l1 l2 : List SubBufferData)
    (ho : l1.map SubBufferData.offset = l2.map SubBufferData.offset)
    (hs : l1.map SubBufferData.size = l2.map SubBufferData.size) :
    ContigP l1 ↔ ContigP l2 := by
  have hlen : l1.length = l2.length := by
    have := congrArg List.length ho; simpa using this
  have hoff : ∀ i, offAt l1 i = offAt l2 i := fun i => by
    rw [offAt_eq_map_getD, offAt_eq_map_getD, ho]
  have hsum : ∀ i, sizeSum (l1.take i) = sizeSum (l2.take i) := fun i => by
    unfold sizeSum
    rw [List.map_take, List.map_take, hs]
  unfold ContigP
  constructor <;> intro h i hi
  · rw [← hoff, ← hsum]; exact h i (by omega)
  · rw [hoff, hsum]; exact h i (by omega)

theorem lastEnd_congr (l1 l2 : List SubBufferData)
    (ho : l1.map SubBufferData.offset = l2.map SubBufferData.offset)
    (hs : l1.map SubBufferData.size = l2.map SubBufferData.size) :
    lastEnd l1 = lastEnd l2 := by
  have hlen : l1.length = l2.length := by
    have := congrArg List.length ho; simpa using this
  cases l1 with
  | nil =>
    cases l2 with
    | nil => rfl
    | cons b bs => simp at ho
  | cons a as =>
    have h2 : l2 ≠ [] := by
      intro h; rw [h] at hlen; simp at hlen
    rw [lastEnd_eq_offAt _ (by simp), lastEnd_eq_offAt _ h2, hlen,
      offAt_eq_map_getD, offAt_eq_map_getD, szAt_eq_map_getD, szAt_eq_map_getD, ho, hs]

/-- Updating only the `filled` field of the record at `k` keeps the offset
column unchanged. -/
theorem map_offset_set_filled (l : List SubBufferData) (k x : ℕ) :
    (l.set k { l.getD k default with filled := x }).map SubBufferData.offset
      = l.map SubBufferData.offset := by
  induction l generalizing k with
  | nil => simp
  | cons a as ih =>
    cases k with
    | zero => simp [List.getD_cons_zero]
    | succ k =>
      simp only [List.set_cons_succ, List.map_cons, List.getD_cons_succ]
      rw [ih]

/-- Updating only the `filled` field of the record at `k` keeps the size
column unchanged. -/
theorem map_size_set_filled (l : List SubBufferData) (k x : ℕ) :
    (l.set k { l.getD k default with filled := x }).map SubBufferData.size
      = l.map SubBufferData.size := by
  induction l generalizing k with
  | nil => simp
  | cons a as ih =>
    cases k with
    | zero => simp [List.getD_cons_zero]
    | succ k =>
      simp only [List.set_cons_succ, List.map_cons, List.getD_cons_succ]
      rw [ih]

/-- Zeroing/adjusting a record's fill (`delete_subbuffer`, `pop`, `clear`,
the fill bump of `copy`/`copy_buffer`) preserves the invariant. -/
theorem inv_set_filled (st : RenderBuffer) (k x : ℕ) (h : Inv st) :
    Inv { st with subbuffers := (st.subbuffers.set k
      { st.subbuffers.getD k default with filled := x }) } := by
  obtain ⟨hc, hcap⟩ := h
  constructor
  · exact (contigP_congr _ _ (map_offset_set_filled st.subbuffers k x)
      (map_size_set_filled st.subbuffers k x)).mpr hc
  · rw [show ({ st with subbuffers := (st.subbuffers.set k
        { st.subbuffers.getD k default with filled := x }) } : RenderBuffer).length
        = st.length from rfl]
    rw [lastEnd_congr _ _ (map_offset_set_filled st.subbuffers k x)
      (map_size_set_filled st.subbuffers k x)]
    exact hcap

/-- Appending a record at the current overall end (what `suballoc` does)
keeps the sequence contiguous. -/
theorem contigP_append_lastEnd (l : List SubBufferData) (hc : ContigP l)
    (sz fil : ℕ) : ContigP (l ++ [⟨sz, lastEnd l, fil⟩]) := by
  intro i hi
  simp only [List.length_append, List.length_cons, List.length_nil] at hi
  have htake : (l ++ [(⟨sz, lastEnd l, fil⟩ : SubBufferData)]).take i
      = l.take i ++ [(⟨sz, lastEnd l, fil⟩ : SubBufferData)].take (i - l.length) := by
    rw [List.take_append_eq_append_take]
  rcases Nat.lt_or_ge i l.length with h | h
  · have e1 : offAt (l ++ [(⟨sz, lastEnd l, fil⟩ : SubBufferData)]) i = offAt l i := by
      unfold offAt
      rw [List.getD_eq_getElem _ _ (by simp; omega), List.getD_eq_getElem _ _ h,
        List.getElem_append_left h]
    rw [e1, htake, Nat.sub_eq_zero_of_le (by omega), List.take_zero, List.append_nil]
    exact hc i h
  · have hieq : i = l.length := by omega
    have e1 : offAt (l ++ [(⟨sz, lastEnd l, fil⟩ : SubBufferData)]) i = lastEnd l := by
      unfold offAt
      rw [List.getD_eq_getElem _ _ (by simp; omega)]
      rw [List.getElem_append_right (by omega)]
      simp [hieq]
    rw [e1, htake, Nat.sub_eq_zero_of_le (by omega), List.take_zero, List.append_nil,
      hieq, List.take_of_length_le (le_refl _)]
    exact lastEnd_eq_sizeSum l hc

theorem lastEnd_append_one (l : List SubBufferData) (r : SubBufferData) :
    lastEnd (l ++ [r]) = r.offset + r.size := by
  unfold lastEnd
  rw [List.getLast?_concat]
  rfl

@[simp] theorem resize_subbuffers (st : RenderBuffer) (x : ℕ) :
    (st.resize x).subbuffers = st.subbuffers := rfl

@[simp] theorem resize_recycle (st : RenderBuffer) (x : ℕ) :
    (st.resize x).recycle = st.recycle := rfl

@[simp] theorem resize_alignment (st : RenderBuffer) (x : ℕ) :
    (st.resize x).alignment = st.alignment := rfl

@[simp] theorem resize_hostVisible (st : RenderBuffer) (x : ℕ) :
    (st.resize x).hostVisible = st.hostVisible := rfl

@[simp] theorem resize_length (st : RenderBuffer) (x : ℕ) :
    (st.resize x).length = round_up x st.alignment := rfl

theorem except_bind_ok {α β : Type} (m : Except RBError α) (f : α → Except RBError β)
    (b : β) (h : m.bind f = .ok b) : ∃ a, m = .ok a ∧ f a = .ok b := by
  cases m with
  | error e => simp [Except.bind] at h
  | ok a => exact ⟨a, rfl, by simpa [Except.bind] using h⟩

/-- What a successful `copy_to_offset` does to the target's non-`mem`
fields: records, recycle set, alignment and host visibility are untouched,
and the backing length can only grow (by the implicit `resize`). -/
theorem copy_to_offset_ok (src tgt : RenderBuffer) (len srcOff dstOff : ℕ)
    (st' : RenderBuffer)
    (h : RenderBuffer.copy_to_offset src tgt len srcOff dstOff = .ok st') :
    st'.subbuffers = tgt.subbuffers ∧ st'.recycle = tgt.recycle ∧
    st'.alignment = tgt.alignment ∧ st'.hostVisible = tgt.hostVisible ∧
    tgt.length ≤ st'.length := by
  unfold RenderBuffer.copy_to_offset at h
  split_ifs at h with h1 h2
  · obtain rfl : _ = st' := Except.ok.inj h
    refine ⟨rfl, rfl, rfl, rfl, ?_⟩
    show tgt.length ≤ round_up (len + dstOff) tgt.alignment
    exact le_trans (by omega) (le_round_up _ _)
  · obtain rfl : _ = st' := Except.ok.inj h
    exact ⟨rfl, rfl, rfl, rfl, le_refl _⟩

theorem getD_map_lt (g : SubBufferData → SubBufferData) (l : List SubBufferData)
    (k : ℕ) (hk : k < l.length) :
    (l.map g).getD k default = g (l.getD k default) := by
  rw [List.getD_eq_getElem _ _ (by simpa using hk), List.getD_eq_getElem _ _ hk]
  exact List.getElem_map ..

theorem getD_drop_add {α : Type} [Inhabited α] (l : List α) (n k : ℕ) :
    (l.drop n).getD k default = l.getD (n + k) default := by
  induction l generalizing n with
  | nil => simp
  | cons a as ih =>
    cases n with
    | zero => simp
    | succ n =>
      rw [List.drop_succ_cons, ih,
        show n + 1 + k = (n + k) + 1 by omega, List.getD_cons_succ]

/-- The record list built by `resuballoc`, element by element: records before
`b` are untouched, record `b` gets the new size (offset and fill kept), and
records after `b` are shifted by `shift`. -/
theorem resub_records_getD (l : List SubBufferData) (b : ℕ) (hb : b < l.length)
    (size : ℕ) (shift : ℤ) (i : ℕ) (hi : i < l.length) :
    (l.take b ++ [{ l.getD b default with size := size }]
      ++ shiftedTail shift (l.drop (b + 1))).getD i default
    = if i < b then l.getD i default
      else if i = b then { l.getD b default with size := size }
      else { l.getD i default with
             offset := (((l.getD i default).offset : ℤ) + shift).toNat } := by
  have htb : (l.take b).length = b := by simp; omega
  have htm : (l.take b ++ [{ l.getD b default with size := size }]).length = b + 1 := by
    simp; omega
  rcases Nat.lt_or_ge i b with hib | hib
  · rw [if_pos hib, List.getD_append _ _ _ _ (by omega), List.getD_append _ _ _ _ (by omega)]
    rw [List.getD_eq_getElem _ _ (by omega), List.getD_eq_getElem _ _ hi]
    exact List.getElem_take ..
  · rw [if_neg (by omega)]
    rcases Nat.eq_or_lt_of_le hib with hieq | hilt
    · rw [if_pos hieq.symm, List.getD_append _ _ _ _ (by omega),
        List.getD_append_right _ _ _ _ (by omega), htb, ← hieq, Nat.sub_self]
      rfl
    · rw [if_neg (by omega), List.getD_append_right _ _ _ _ (by omega), htm]
      unfold shiftedTail
      rw [getD_map_lt _ _ _ (by simp; omega), getD_drop_add]
      have hbi : b + 1 + (i - (b + 1)) = i := by omega
      rw [hbi]

theorem resub_records_length (l : List SubBufferData) (b : ℕ) (hb : b < l.length)
    (size : ℕ) (shift : ℤ) :
    (l.take b ++ [{ l.getD b default with size := size }]
      ++ shiftedTail shift (l.drop (b + 1))).length = l.length := by
  simp [shiftedTail]
  omega

theorem resub_offAt (l : List SubBufferData) (b : ℕ) (hb : b < l.length)
    (size : ℕ) (shift : ℤ) (i : ℕ) (hi : i < l.length) :
    offAt (l.take b ++ [{ l.getD b default with size := size }]
      ++ shiftedTail shift (l.drop (b + 1))) i
    = if i ≤ b then offAt l i else (((offAt l i : ℤ) + shift).toNat : ℕ) := by
  unfold offAt
  rw [resub_records_getD l b hb size shift i hi]
  rcases Nat.lt_trichotomy i b with h | h | h
  · rw [if_pos h, if_pos (by omega)]
  · subst h
    rw [if_neg (by omega), if_pos rfl, if_pos (le_refl _)]
  · rw [if_neg (by omega), if_neg (by omega), if_neg (by omega)]

theorem resub_szAt (l : List SubBufferData) (b : ℕ) (hb : b < l.length)
    (size : ℕ) (shift : ℤ) (i : ℕ) (hi : i < l.length) :
    szAt (l.take b ++ [{ l.getD b default with size := size }]
      ++ shiftedTail shift (l.drop (b + 1))) i
    = if i = b then size else szAt l i := by
  unfold szAt
  rw [resub_records_getD l b hb size shift i hi]
  rcases Nat.lt_trichotomy i b with h | h | h
  · rw [if_pos h, if_neg (by omega)]
  · subst h
    rw [if_neg (by omega), if_pos rfl, if_pos rfl]
  · rw [if_neg (by omega), if_neg (by omega), if_neg (by omega)]

/-- Contiguity is equivalently: first offset `0`, and each record starts
where the previous one ends (the formulation of the claim). -/
theorem contigP_iff_step (l : List SubBufferData) :
    ContigP l ↔ ((0 < l.length → offAt l 0 = 0) ∧
      ∀ i, i + 1 < l.length → offAt l (i + 1) = offAt l i + szAt l i) := by
  constructor
  · intro hc
    refine ⟨fun h0 => by simpa [sizeSum] using hc 0 h0, fun i hi => ?_⟩
    rw [hc (i + 1) hi, hc i (by omega), sizeSum_take_succ l i (by omega)]
  · rintro ⟨h0, hstep⟩ i hi
    induction i with
    | zero => simpa [sizeSum] using h0 (by omega)
    | succ k ih =>
      rw [hstep k hi, ih (by omega), sizeSum_take_succ l k (by omega)]

/-- The record transformation of `resuballoc` (new size at `b`, later offsets
shifted) preserves contiguity, provided the shift is the size delta of record
`b`. -/
theorem contigP_resub (l : List SubBufferData) (hc : ContigP l) (b : ℕ)
    (hb : b < l.length) (size : ℕ) (shift : ℤ)
    (hshift : shift = (size : ℤ) - (szAt l b : ℤ)) :
    ContigP (l.take b ++ [{ l.getD b default with size := size }]
      ++ shiftedTail shift (l.drop (b + 1))) := by
  have hlen := resub_records_length l b hb size shift
  have hstep := (contigP_iff_step l).mp hc
  rw [contigP_iff_step]
  constructor
  · intro h0
    rw [hlen] at h0
    rw [resub_offAt l b hb size shift 0 (by omega), if_pos (by omega)]
    exact hstep.1 (by omega)
  · intro i hi
    rw [hlen] at hi
    rw [resub_offAt l b hb size shift (i + 1) (by omega),
      resub_offAt l b hb size shift i (by omega),
      resub_szAt l b hb size shift i (by omega)]
    have hs := hstep.2 i hi
    rcases Nat.lt_trichotomy i b with h | h | h
    · rw [if_pos (by omega), if_pos (by omega), if_neg (by omega)]
      exact hs
    · subst h
      rw [if_neg (by omega), if_pos (le_refl _), if_pos rfl]
      omega
    · have hord := contigP_ordered l hc b i h (by omega)
      rw [if_neg (by omega), if_neg (by omega), if_neg (by omega)]
      omega

/-- The new overall end after the `resuballoc` record transformation is the
old one plus the shift. -/
theorem lastEnd_resub (l : List SubBufferData) (hc : ContigP l) (b : ℕ)
    (hb : b < l.length) (size : ℕ) (shift : ℤ)
    (hshift : shift = (size : ℤ) - (szAt l b : ℤ)) :
    (lastEnd (l.take b ++ [{ l.getD b default with size := size }]
      ++ shiftedTail shift (l.drop (b + 1))) : ℤ) = (lastEnd l : ℤ) + shift := by
  have hlen := resub_records_length l b hb size shift
  have hne : (l.take b ++ [{ l.getD b default with size := size }]
      ++ shiftedTail shift (l.drop (b + 1))) ≠ [] := by
    apply List.length_pos.mp
    omega
  have hlne : l ≠ [] := by
    apply List.length_pos.mp
    omega
  rw [lastEnd_eq_offAt _ hne, lastEnd_eq_offAt _ hlne, hlen]
  push_cast
  rw [resub_offAt l b hb size shift (l.length - 1) (by omega),
    resub_szAt l b hb size shift (l.length - 1) (by omega)]
  rcases Nat.eq_or_lt_of_le (Nat.succ_le_of_lt hb) with hbl | hbl
  · have hb1 : l.length - 1 = b := by omega
    rw [hb1, if_pos (le_refl _), if_pos rfl]
    omega
  · have hgt : ¬(l.length - 1 ≤ b) := by omega
    have hnb : ¬(l.length - 1 = b) := by omega
    rw [if_neg hgt, if_neg hnb]
    have hord := contigP_ordered l hc b (l.length - 1) (by omega) (by omega)
    omega

@[simp] theorem recAt_eq (st : RenderBuffer) (i : ℕ) :
    st.recAt i = st.subbuffers.getD i default := rfl

/-- What a successful `resuballocCore` run does to the non-`mem` state: the
records take the take/set-size/shift shape, the recycle set, alignment and
host visibility are unchanged, and the backing length is at least the new
overall end (either it already was, or `resize` rounded it up). -/
theorem resuballocCore_spec (st : RenderBuffer) (b s : ℕ) (st' : RenderBuffer)
    (hok : st.resuballocCore b s = .ok st') :
    st'.subbuffers = st.subbuffers.take b
        ++ [{ st.subbuffers.getD b default with size := round_up s st.alignment }]
        ++ shiftedTail ((round_up s st.alignment : ℤ)
            - ((st.subbuffers.getD b default).size : ℤ)) (st.subbuffers.drop (b + 1))
      ∧ st'.recycle = st.recycle
      ∧ st'.alignment = st.alignment
      ∧ st'.hostVisible = st.hostVisible
      ∧ (((st.subbuffers.getLast?.getD default).offset : ℤ)
          + ((st.subbuffers.getLast?.getD default).size : ℤ)
          + ((round_up s st.alignment : ℤ)
            - ((st.subbuffers.getD b default).size : ℤ))).toNat ≤ st'.length := by
  simp only [RenderBuffer.resuballocCore] at hok
  split_ifs at hok with h1 h2 h3
  all_goals try simp only [resize_subbuffers, resize_recycle, resize_alignment,
    resize_hostVisible, resize_length] at hok
  all_goals first
  | (obtain ⟨temp1, hcopy1, hcopy2⟩ := except_bind_ok _ _ _ hok
     obtain ⟨e1, e2, e3, e4, e5⟩ := copy_to_offset_ok _ _ _ _ _ _ hcopy2
     refine ⟨by rw [e1], by rw [e2], by rw [e3], by rw [e4], ?_⟩
     refine le_trans ?_ e5
     simp only [resize_length]
     first
     | exact le_trans (Int.toNat_le_toNat (le_refl _)) (le_round_up _ _)
     | omega)
  | (obtain rfl : _ = st' := Except.ok.inj hok
     refine ⟨rfl, rfl, rfl, rfl, ?_⟩
     simp only [resize_length]
     first
     | exact le_round_up _ _
     | omega)

/-- The cast form of `lastEnd`. -/
theorem lastEnd_cast (l : List SubBufferData) :
    (lastEnd l : ℤ) = ((l.getLast?.getD default).offset : ℤ)
      + ((l.getLast?.getD default).size : ℤ) := by
  unfold lastEnd
  push_cast
  ring

theorem contigP_set_filled (l : List SubBufferData) (k x : ℕ) (hc : ContigP l) :
    ContigP (l.set k { l.getD k default with filled := x }) :=
  (contigP_congr _ _ (map_offset_set_filled l k x) (map_size_set_filled l k x)).mpr hc

theorem lastEnd_set_filled (l : List SubBufferData) (k x : ℕ) :
    lastEnd (l.set k { l.getD k default with filled := x }) = lastEnd l :=
  lastEnd_congr _ _ (map_offset_set_filled l k x) (map_size_set_filled l k x)

/-- A successful `resuballoc` body preserves the allocator invariant. -/
theorem inv_resuballocCore (st : RenderBuffer) (b s : ℕ) (hinv : Inv st)
    (hb : b < st.subbuffers.length) (st' : RenderBuffer)
    (hok : st.resuballocCore b s = .ok st') : Inv st' := by
  obtain ⟨hc, hcap⟩ := hinv
  obtain ⟨e1, _, _, _, e5⟩ := resuballocCore_spec st b s st' hok
  constructor
  · rw [e1]
    exact contigP_resub _ hc b hb _ _ rfl
  · rw [e1]
    have hle := lastEnd_resub st.subbuffers hc b hb (round_up s st.alignment)
      ((round_up s st.alignment : ℤ) - ((st.subbuffers.getD b default).size : ℤ)) rfl
    have hcast := lastEnd_cast st.subbuffers
    omega

/-- `suballoc` preserves the allocator invariant. -/
theorem inv_suballoc (st : RenderBuffer) (s : ℕ) (hinv : Inv st) :
    Inv (st.suballoc s).1 := by
  obtain ⟨hc, hcap⟩ := hinv
  unfold RenderBuffer.suballoc
  dsimp only
  split_ifs with h1 h2 h3 h4
  all_goals dsimp only
  · exact ⟨hc, hcap⟩
  · -- empty, resize
    constructor
    · intro i hi
      simp only [resize_subbuffers, List.length_cons, List.length_nil] at hi
      have : i = 0 := by omega
      subst this
      rfl
    · simp only [resize_subbuffers, resize_length]
      refine le_trans ?_ (le_round_up _ _)
      simp [lastEnd]
  · -- empty, no resize
    constructor
    · intro i hi
      simp only [List.length_cons, List.length_nil] at hi
      have : i = 0 := by omega
      subst this
      rfl
    · simp only [lastEnd, List.getLast?_singleton, Option.getD_some]
      omega
  · -- nonempty, resize
    constructor
    · simp only [resize_subbuffers]
      exact contigP_append_lastEnd st.subbuffers hc _ _
    · simp only [resize_subbuffers, resize_length]
      rw [lastEnd_append_one]
      exact le_round_up _ _
  · -- nonempty, no resize
    constructor
    · exact contigP_append_lastEnd st.subbuffers hc _ _
    · rw [lastEnd_append_one]
      show (st.subbuffers.getLast?.getD default).offset
          + (st.subbuffers.getLast?.getD default).size
          + round_up s st.alignment ≤ st.length
      omega

/-- A state differing from an invariant state only in `mem`/`recycle`, with
set-filled records and a length at least as large, satisfies the invariant. -/
theorem inv_of_parts (st' : RenderBuffer) (l : List SubBufferData) (L : ℕ)
    (hc : ContigP l) (hcap : lastEnd l ≤ L) (k x : ℕ)
    (hsub : st'.subbuffers = l.set k { l.getD k default with filled := x })
    (hlen : L ≤ st'.length) : Inv st' := by
  constructor
  · rw [hsub]
    exact contigP_set_filled l k x hc
  · rw [hsub, lastEnd_set_filled]
    omega

theorem inv_resuballoc (st : RenderBuffer) (h : ℤ) (s : ℕ) (st' : RenderBuffer)
    (hinv : Inv st) (hok : st.resuballoc h s = .ok st') : Inv st' := by
  unfold RenderBuffer.resuballoc at hok
  split_ifs at hok with hv
  exact inv_resuballocCore st h.toNat s hinv hv.2.1 st' hok

theorem inv_delete_subbuffer (st : RenderBuffer) (h : ℤ) (st' : RenderBuffer)
    (hinv : Inv st) (hok : st.delete_subbuffer h = .ok st') : Inv st' := by
  unfold RenderBuffer.delete_subbuffer at hok
  split_ifs at hok with hv
  obtain rfl : _ = st' := Except.ok.inj hok
  exact inv_of_parts _ st.subbuffers st.length hinv.1 hinv.2 h.toNat 0 rfl (le_refl _)

theorem inv_pop (st : RenderBuffer) (h : ℤ) (len : ℕ) (st' : RenderBuffer)
    (hinv : Inv st) (hok : st.pop h len = .ok st') : Inv st' := by
  unfold RenderBuffer.pop at hok
  split_ifs at hok with hv hu
  obtain rfl : _ = st' := Except.ok.inj hok
  exact inv_of_parts _ st.subbuffers st.length hinv.1 hinv.2 h.toNat _ rfl (le_refl _)

theorem inv_clear (st : RenderBuffer) (h : ℤ) (st' : RenderBuffer)
    (hinv : Inv st) (hok : st.clear h = .ok st') : Inv st' := by
  unfold RenderBuffer.clear at hok
  split_ifs at hok with hv
  obtain rfl : _ = st' := Except.ok.inj hok
  exact inv_of_parts _ st.subbuffers st.length hinv.1 hinv.2 h.toNat 0 rfl (le_refl _)

theorem inv_copy (st : RenderBuffer) (h : ℤ) (data : ℕ → ℕ) (len : ℕ)
    (st' : RenderBuffer) (hinv : Inv st) (hok : st.copy h data len = .ok st') :
    Inv st' := by
  simp only [RenderBuffer.copy] at hok
  split_ifs at hok with hv hh hg
  · obtain ⟨st1, hm, hf⟩ := except_bind_ok _ _ _ hok
    obtain rfl : _ = st' := Except.ok.inj hf
    have hinv1 : Inv st1 := inv_resuballocCore st h.toNat _ hinv hv.2.1 st1 hm
    exact inv_of_parts _ st1.subbuffers st1.length hinv1.1 hinv1.2 h.toNat _ rfl
      (le_refl _)
  · obtain ⟨st1, hm, hf⟩ := except_bind_ok _ _ _ hok
    obtain rfl : st = st1 := Except.ok.inj hm
    obtain rfl : _ = st' := Except.ok.inj hf
    exact inv_of_parts _ st.subbuffers st.length hinv.1 hinv.2 h.toNat _ rfl (le_refl _)

theorem inv_copy_raw (st : RenderBuffer) (data : ℕ → ℕ) (len off : ℕ)
    (st' : RenderBuffer) (hinv : Inv st) (hok : st.copy_raw data len off = .ok st') :
    Inv st' := by
  unfold RenderBuffer.copy_raw at hok
  split_ifs at hok with hh hr
  · obtain rfl : _ = st' := Except.ok.inj hok
    refine ⟨hinv.1, ?_⟩
    show lastEnd st.subbuffers ≤ round_up (off + len) st.alignment
    exact le_trans (le_trans hinv.2 (by omega)) (le_round_up _ _)
  · obtain rfl : _ = st' := Except.ok.inj hok
    exact hinv

theorem inv_remove (st : RenderBuffer) (h : ℤ) (off len : ℕ) (st' : RenderBuffer)
    (hinv : Inv st) (hok : st.remove h off len = .ok st') : Inv st' := by
  simp only [RenderBuffer.remove] at hok
  split_ifs at hok with hv hr hs
  · -- bounce copies, then fill decrement
    obtain ⟨temp1, hm1, hf1⟩ := except_bind_ok _ _ _ hok
    obtain ⟨st1, hm2, hf2⟩ := except_bind_ok _ _ _ hf1
    obtain ⟨e1, e2, e3, e4, e5⟩ := copy_to_offset_ok _ _ _ _ _ _ hm2
    obtain rfl : _ = st' := Except.ok.inj hf2
    refine inv_of_parts _ st1.subbuffers st1.length ?_ ?_ h.toNat _ rfl (le_refl _)
    · rw [e1]; exact hinv.1
    · rw [e1]
      exact le_trans hinv.2 e5
  · obtain ⟨st1, hm, hf⟩ := except_bind_ok _ _ _ hok
    obtain rfl : st = st1 := Except.ok.inj hm
    obtain rfl : _ = st' := Except.ok.inj hf
    exact inv_of_parts _ st.subbuffers st.length hinv.1 hinv.2 h.toNat _ rfl (le_refl _)

theorem inv_copy_buffer_tgt (src tgt : RenderBuffer) (len : ℕ) (hs hd : ℤ)
    (src' tgt' : RenderBuffer) (hinv : Inv tgt)
    (hok : RenderBuffer.copy_buffer src tgt len hs hd = .ok (src', tgt')) :
    Inv tgt' := by
  simp only [RenderBuffer.copy_buffer] at hok
  split_ifs at hok with hv1 hv2 hg
  · obtain ⟨tgt1, hm, hf⟩ := except_bind_ok _ _ _ hok
    obtain ⟨tgt2, hm2, hf2⟩ := except_bind_ok _ _ _ hf
    obtain ⟨rfl, rfl⟩ := Prod.mk.inj (Except.ok.inj hf2)
    have hinv1 : Inv tgt1 := inv_resuballocCore tgt hd.toNat _ hinv hv2.2.1 tgt1 hm
    obtain ⟨e1, e2, e3, e4, e5⟩ := copy_to_offset_ok _ _ _ _ _ _ hm2
    refine inv_of_parts _ tgt2.subbuffers tgt2.length ?_ ?_ hd.toNat _ rfl (le_refl _)
    · rw [e1]; exact hinv1.1
    · rw [e1]; exact le_trans hinv1.2 e5
  · obtain ⟨tgt1, hm, hf⟩ := except_bind_ok _ _ _ hok
    obtain rfl : tgt = tgt1 := Except.ok.inj hm
    obtain ⟨tgt2, hm2, hf2⟩ := except_bind_ok _ _ _ hf
    obtain ⟨rfl, rfl⟩ := Prod.mk.inj (Except.ok.inj hf2)
    obtain ⟨e1, e2, e3, e4, e5⟩ := copy_to_offset_ok _ _ _ _ _ _ hm2
    refine inv_of_parts _ tgt2.subbuffers tgt2.length ?_ ?_ hd.toNat _ rfl (le_refl _)
    · rw [e1]; exact hinv.1
    · rw [e1]; exact le_trans hinv.2 e5

/-- A successful `copy_buffer` returns the source unchanged. -/
theorem copy_buffer_src_eq (src tgt : RenderBuffer) (len : ℕ) (hs hd : ℤ)
    (src' tgt' : RenderBuffer)
    (hok : RenderBuffer.copy_buffer src tgt len hs hd = .ok (src', tgt')) :
    src' = src := by
  simp only [RenderBuffer.copy_buffer] at hok
  split_ifs at hok with hv1 hv2 hg
  all_goals
    obtain ⟨tgt1, hm, hf⟩ := except_bind_ok _ _ _ hok
  all_goals
    obtain ⟨tgt2, hm2, hf2⟩ := except_bind_ok _ _ _ hf
  all_goals
    obtain ⟨rfl, rfl⟩ := Prod.mk.inj (Except.ok.inj hf2)
  all_goals rfl

/-! ## Reachable states -/

/-- One successful public mutating operation of `RenderBuffer` — the public
interface of `buffer.h` (`suballoc`, `copy`, `copy_buffer`, `copy_raw`,
`remove`, `pop`, `clear`, `delete_subbuffer`), plus `resuballoc` itself (the
spec's `growInPlace`, `private` in the source) with no size restriction. -/
inductive PStep : RenderBuffer → RenderBuffer → Prop
  | suballoc (st : RenderBuffer) (s : ℕ) : PStep st (st.suballoc s).1
  | resuballoc (st : RenderBuffer) (h : ℤ) (s : ℕ) (st' : RenderBuffer) :
      st.resuballoc h s = .ok st' → PStep st st'
  | delete_subbuffer (st : RenderBuffer) (h : ℤ) (st' : RenderBuffer) :
      st.delete_subbuffer h = .ok st' → PStep st st'
  | pop (st : RenderBuffer) (h : ℤ) (len : ℕ) (st' : RenderBuffer) :
      st.pop h len = .ok st' → PStep st st'
  | clear (st : RenderBuffer) (h : ℤ) (st' : RenderBuffer) :
      st.clear h = .ok st' → PStep st st'
  | remove (st : RenderBuffer) (h : ℤ) (off len : ℕ) (st' : RenderBuffer) :
      st.remove h off len = .ok st' → PStep st st'
  | copy (st : RenderBuffer) (h : ℤ) (data : ℕ → ℕ) (len : ℕ) (st' : RenderBuffer) :
      st.copy h data len = .ok st' → PStep st st'
  | copy_raw (st : RenderBuffer) (data : ℕ → ℕ) (len off : ℕ) (st' : RenderBuffer) :
      st.copy_raw data len off = .ok st' → PStep st st'
  | copy_buffer_tgt (src tgt : RenderBuffer) (len : ℕ) (hs hd : ℤ)
      (src' tgt' : RenderBuffer) :
      RenderBuffer.copy_buffer src tgt len hs hd = .ok (src', tgt') → PStep tgt tgt'
  | copy_buffer_src (src tgt : RenderBuffer) (len : ℕ) (hs hd : ℤ)
      (src' tgt' : RenderBuffer) :
      RenderBuffer.copy_buffer src tgt len hs hd = .ok (src', tgt') → PStep src src'

/-- States reachable from a fresh `RenderBuffer` by public operations. -/
inductive ReachPub : RenderBuffer → Prop
  | init (L a : ℕ) (hv : Bool) : ReachPub (mkRenderBuffer L a hv)
  | step (st st' : RenderBuffer) : ReachPub st → PStep st st' → ReachPub st'

theorem inv_mk (L a : ℕ) (hv : Bool) : Inv (mkRenderBuffer L a hv) := by
  constructor
  · intro i hi
    simp [mkRenderBuffer] at hi
  · show lastEnd [] ≤ L
    simp [lastEnd_nil]

theorem inv_pstep (st st' : RenderBuffer) (hinv : Inv st) (hst : PStep st st') :
    Inv st' :=
  match hst with
  | .suballoc _ s => inv_suballoc st s hinv
  | .resuballoc _ h s _ hok => inv_resuballoc st h s st' hinv hok
  | .delete_subbuffer _ h _ hok => inv_delete_subbuffer st h st' hinv hok
  | .pop _ h len _ hok => inv_pop st h len st' hinv hok
  | .clear _ h _ hok => inv_clear st h st' hinv hok
  | .remove _ h off len _ hok => inv_remove st h off len st' hinv hok
  | .copy _ h data len _ hok => inv_copy st h data len st' hinv hok
  | .copy_raw _ data len off _ hok => inv_copy_raw st data len off st' hinv hok
  | .copy_buffer_tgt src _ len hs hd src' _ hok =>
      inv_copy_buffer_tgt src st len hs hd src' st' hinv hok
  | .copy_buffer_src _ tgt len hs hd _ tgt' hok => by
      rw [copy_buffer_src_eq st tgt len hs hd st' tgt' hok]
      exact hinv

theorem inv_reachPub (st : RenderBuffer) (hr : ReachPub st) : Inv st := by
  induction hr with
  | init L a hv => exact inv_mk L a hv
  | step st st' _ hstep ih => exact inv_pstep st st' ih hstep

/-- The operations of claim C2: `suballoc`, `delete_subbuffer`, and
`resuballoc` restricted to a not-smaller rounded size. -/
inductive StepADG : RenderBuffer → RenderBuffer → Prop
  | suballoc (st : RenderBuffer) (s : ℕ) : StepADG st (st.suballoc s).1
  | delete_subbuffer (st : RenderBuffer) (h : ℤ) (st' : RenderBuffer) :
      st.delete_subbuffer h = .ok st' → StepADG st st'
  | grow (st : RenderBuffer) (h : ℤ) (s : ℕ) (st' : RenderBuffer) :
      (st.recAt h.toNat).size ≤ round_up s st.alignment →
      st.resuballoc h s = .ok st' → StepADG st st'

/-- States reachable from a fresh `RenderBuffer` by
allocate/delete/grow-in-place only. -/
inductive ReachADG : RenderBuffer → Prop
  | init (L a : ℕ) (hv : Bool) : ReachADG (mkRenderBuffer L a hv)
  | step (st st' : RenderBuffer) : ReachADG st → StepADG st st' → ReachADG st'

theorem inv_reachADG (st : RenderBuffer) (hr : ReachADG st) : Inv st := by
  induction hr with
  | init L a hv => exact inv_mk L a hv
  | step st st' _ hstep ih =>
    exact match hstep with
    | .suballoc _ s => inv_suballoc st s ih
    | .delete_subbuffer _ h _ hok => inv_delete_subbuffer st h st' ih hok
    | .grow _ h s _ hgrow hok => inv_resuballoc st h s st' ih hok

/-! ## Claims -/

/-- C2: for every sequence of `suballoc` (allocate), `delete_subbuffer`
(delete) and grow-only `resuballoc` (growInPlace) operations on one
`RenderBuffer`, at every point between operations the byte ranges
`[offset, offset + size)` of all live (non-recycled) records are pairwise
disjoint, and the live records taken in index order have non-decreasing
offsets. -/
theorem claim_C2_non_overlap (st : RenderBuffer) (hr : ReachADG st) :
    (∀ i j, i < j → j < st.subbuffers.length →
      i ∉ st.recycle → j ∉ st.recycle →
      Disjoint
        (Set.Ico (offAt st.subbuffers i) (offAt st.subbuffers i + szAt st.subbuffers i))
        (Set.Ico (offAt st.subbuffers j) (offAt st.subbuffers j + szAt st.subbuffers j))) ∧
    (∀ i j, i ≤ j → j < st.subbuffers.length →
      i ∉ st.recycle → j ∉ st.recycle →
      offAt st.subbuffers i ≤ offAt st.subbuffers j) := by
  have hinv := inv_reachADG st hr
  constructor
  · intro i j hij hj _ _
    have hord := contigP_ordered st.subbuffers hinv.1 i j hij hj
    rw [Set.disjoint_left]
    intro x hx hx'
    simp only [Set.mem_Ico] at hx hx'
    omega
  · intro i j hij hj _ _
    rcases Nat.eq_or_lt_of_le hij with rfl | hlt
    · exact le_refl _
    · have := contigP_ordered st.subbuffers hinv.1 i j hlt hj
      omega

/-- The state reached by allocating 16 + 16 bytes in a 64-byte backing. -/
def adgState : RenderBuffer :=
  (((mkRenderBuffer 64 16 true).suballoc 16).1.suballoc 16).1

/-- `adgState` after `delete_subbuffer 1`. -/
def adgStateD : RenderBuffer :=
  { adgState with subbuffers := [⟨16, 0, 0⟩, ⟨16, 16, 0⟩], recycle := {1} }

/-- `adgStateD` after growing subbuffer 0 to 32 bytes. -/
def adgStateG : RenderBuffer := (adgStateD.resuballoc 0 32).toOption.getD adgStateD

theorem claim_C2_non_overlap_witness :
    (∀ i j, i < j → j < adgStateG.subbuffers.length →
      i ∉ adgStateG.recycle → j ∉ adgStateG.recycle →
      Disjoint
        (Set.Ico (offAt adgStateG.subbuffers i) (offAt adgStateG.subbuffers i + szAt adgStateG.subbuffers i))
        (Set.Ico (offAt adgStateG.subbuffers j) (offAt adgStateG.subbuffers j + szAt adgStateG.subbuffers j))) ∧
    (∀ i j, i ≤ j → j < adgStateG.subbuffers.length →
      i ∉ adgStateG.recycle → j ∉ adgStateG.recycle →
      offAt adgStateG.subbuffers i ≤ offAt adgStateG.subbuffers j) :=
  claim_C2_non_overlap adgStateG
    (ReachADG.step _ _
      (ReachADG.step _ _
        (ReachADG.step _ _ (ReachADG.step _ _ (ReachADG.init 64 16 true)
          (StepADG.suballoc _ 16)) (StepADG.suballoc _ 16))
        (StepADG.delete_subbuffer _ 1 adgStateD (by rfl)))
      (StepADG.grow _ 0 32 adgStateG (by decide) (by rfl)))

/-- C8: in every reachable `RenderBuffer` state the record sequence,
recycled records included, is exactly contiguous: the first record (when
present) has offset 0 and every following record starts exactly where its
predecessor ends; every public operation preserves this. -/
theorem claim_C8_contiguity (st : RenderBuffer) (hr : ReachPub st) :
    (∀ r, st.subbuffers.head? = some r → r.offset = 0) ∧
    (∀ i, i + 1 < st.subbuffers.length →
      offAt st.subbuffers (i + 1) = offAt st.subbuffers i + szAt st.subbuffers i) := by
  have hc := (inv_reachPub st hr).1
  have hstep := (contigP_iff_step st.subbuffers).mp hc
  constructor
  · intro r hrhd
    have h0 := hstep.1
    cases hl : st.subbuffers with
    | nil => rw [hl] at hrhd; simp at hrhd
    | cons c cs =>
      rw [hl] at hrhd
      simp only [List.head?_cons, Option.some.injEq] at hrhd
      subst hrhd
      have h1 := h0 (by rw [hl]; simp)
      rw [hl] at h1
      simpa [offAt] using h1
  · exact hstep.2

/-- The state reached by two allocations with rounding (20 → 32, 5 → 16). -/
def pubState : RenderBuffer :=
  (((mkRenderBuffer 64 16 true).suballoc 20).1.suballoc 5).1

theorem claim_C8_contiguity_witness :
    (∀ r, pubState.subbuffers.head? = some r → r.offset = 0) ∧
    (∀ i, i + 1 < pubState.subbuffers.length →
      offAt pubState.subbuffers (i + 1)
        = offAt pubState.subbuffers i + szAt pubState.subbuffers i) :=
  claim_C8_contiguity pubState
    (ReachPub.step _ _ (ReachPub.step _ _ (ReachPub.init 64 16 true)
      (PStep.suballoc _ 20)) (PStep.suballoc _ 5))

/-- C9: after every public operation the backing allocation length is at
least the end of the last record, so every record's reserved range lies
inside the backing capacity. -/
theorem claim_C9_capacity (st : RenderBuffer) (hr : ReachPub st) :
    lastEnd st.subbuffers ≤ st.length :=
  (inv_reachPub st hr).2

/-- The state reached by allocating 100 bytes in a 16-byte buffer (forces a
resize to `round_up 100 16 = 112`). -/
def growState : RenderBuffer := ((mkRenderBuffer 16 16 true).suballoc 100).1

theorem claim_C9_capacity_witness : lastEnd growState.subbuffers ≤ growState.length :=
  claim_C9_capacity growState
    (ReachPub.step _ _ (ReachPub.init 16 16 true) (PStep.suballoc _ 100))

/-- C10: whenever the recycle set is non-empty, `suballoc` returns the
minimum index in the set (`*recycle_.begin()` of the `std::set`), removes
exactly that index from the set, and leaves every record, the backing length
and the backing bytes unchanged. -/
theorem claim_C10_recycle_min (st : RenderBuffer) (s : ℕ)
    (hne : st.recycle.Nonempty) :
    (st.suballoc s).2 = (st.recycle.min' hne : ℤ) ∧
    (st.suballoc s).1.recycle = st.recycle.erase (st.recycle.min' hne) ∧
    (st.suballoc s).1.subbuffers = st.subbuffers ∧
    (st.suballoc s).1.length = st.length ∧
    (∀ i, (st.suballoc s).1.mem i = st.mem i) := by
  unfold RenderBuffer.suballoc
  rw [dif_pos hne]
  exact ⟨rfl, rfl, rfl, rfl, fun i => rfl⟩

/-- A buffer with three records of which 1 and 2 are recycled. -/
def recycledState : RenderBuffer :=
  { mkRenderBuffer 48 16 true with
    subbuffers := [⟨16, 0, 0⟩, ⟨16, 16, 0⟩, ⟨16, 32, 0⟩], recycle := {1, 2} }

theorem claim_C10_recycle_min_witness :
    (recycledState.suballoc 77).2 = (1 : ℤ) ∧
    (recycledState.suballoc 77).1.subbuffers = recycledState.subbuffers ∧
    (recycledState.suballoc 77).1.length = recycledState.length :=
  ⟨((claim_C10_recycle_min recycledState 77 (by decide)).1).trans (by decide),
   (claim_C10_recycle_min recycledState 77 (by decide)).2.2.1,
   (claim_C10_recycle_min recycledState 77 (by decide)).2.2.2.1⟩

/-- C6: for every handle that is out of range (including every negative
handle) or currently recycled, each handle-taking accessor and mutator
(`get_offset`, `get_subfill`, `get_subsize`, `copy`, `copy_buffer`,
`remove`, `pop`, `clear`, `delete_subbuffer`, `resuballoc`) fails with the
invalid-handle error; since the check precedes every mutation, no state is
produced and the allocator is unchanged. -/
theorem claim_C6_invalid_handle (st : RenderBuffer) (h : ℤ)
    (hbad : ¬ st.validHandle h) :
    st.get_offset h = .error .invalidHandle ∧
    st.get_subfill h = .error .invalidHandle ∧
    st.get_subsize h = .error .invalidHandle ∧
    (∀ data len, st.copy h data len = .error .invalidHandle) ∧
    (∀ tgt len hd, RenderBuffer.copy_buffer st tgt len h hd = .error .invalidHandle) ∧
    (∀ off len, st.remove h off len = .error .invalidHandle) ∧
    (∀ len, st.pop h len = .error .invalidHandle) ∧
    st.clear h = .error .invalidHandle ∧
    st.delete_subbuffer h = .error .invalidHandle ∧
    (∀ s, st.resuballoc h s = .error .invalidHandle) := by
  refine ⟨?_, ?_, ?_, ?_, ?_, ?_, ?_, ?_, ?_, ?_⟩
  · unfold RenderBuffer.get_offset; rw [if_neg hbad]
  · unfold RenderBuffer.get_subfill; rw [if_neg hbad]
  · unfold RenderBuffer.get_subsize; rw [if_neg hbad]
  · intro data len
    simp only [RenderBuffer.copy]
    rw [if_neg hbad]
  · intro tgt len hd
    simp only [RenderBuffer.copy_buffer]
    rw [if_neg hbad]
  · intro off len
    simp only [RenderBuffer.remove]
    rw [if_neg hbad]
  · intro len
    unfold RenderBuffer.pop; rw [if_neg hbad]
  · unfold RenderBuffer.clear; rw [if_neg hbad]
  · unfold RenderBuffer.delete_subbuffer; rw [if_neg hbad]
  · intro s
    unfold RenderBuffer.resuballoc; rw [if_neg hbad]

/-- A buffer with one record, probed with the negative handle `-3`. -/
def oneRecState : RenderBuffer := ((mkRenderBuffer 64 16 true).suballoc 16).1

theorem claim_C6_invalid_handle_witness :
    oneRecState.get_offset (-3) = .error .invalidHandle ∧
    oneRecState.delete_subbuffer (-3) = .error .invalidHandle ∧
    (∀ s, oneRecState.resuballoc (-3) s = .error .invalidHandle) :=
  ⟨(claim_C6_invalid_handle oneRecState (-3) (by decide)).1,
   (claim_C6_invalid_handle oneRecState (-3) (by decide)).2.2.2.2.2.2.2.2.1,
   (claim_C6_invalid_handle oneRecState (-3) (by decide)).2.2.2.2.2.2.2.2.2⟩

/-- The scenario pool of claim C7: capacity 4096, alignment 1024, empty. -/
def c7Pool : ImagePool :=
  { capacity := 4096, alignment := 1024, subbuffers := [], recycle := [] }

/-- An allocator owning only the scenario pool. -/
def c7Al0 : ImageAllocator := { alignment := 1024, pools := [c7Pool] }

/-- The allocator after four 1024-byte bindings (the pool is exactly full). -/
def c7Al4 : ImageAllocator :=
  ((((c7Al0.allocate_memory 1024).1.allocate_memory 1024).1.allocate_memory
    1024).1.allocate_memory 1024).1

/-- C7: in a capacity-4096 pool holding four 1024-byte bindings (offsets
0/1024/2048/3072), removing binding #2 and allocating another 1024 bytes
reuses binding #2's slot: the handle is pool 0, index 2, the binding still
sits at offset 2048, and no new pool is created. -/
theorem claim_C7_pool_recycling :
    (c7Al4.pools.getD 0 c7Pool).subbuffers.length = 4 ∧
    (c7Al4.pools.getD 0 c7Pool).subbuffers.getD 2 default = ⟨1024, 2048, 0⟩ ∧
    (((c7Al4.remove_image 0 2).allocate_memory 1024).2 = ((0 : ℕ), (2 : ℤ))) ∧
    (((c7Al4.remove_image 0 2).allocate_memory 1024).1.pools.getD 0
        c7Pool).subbuffers.getD 2 default = ⟨1024, 2048, 0⟩ ∧
    ((c7Al4.remove_image 0 2).allocate_memory 1024).1.pools.length = 1 ∧
    (((c7Al4.remove_image 0 2).allocate_memory 1024).1.pools.getD 0
        c7Pool).subbuffers.length = 4 := by
  decide

/-- The 256 MiB + 1 request of claim C3, larger than any pool can hold. -/
def oversizedReq : ℕ := poolCapacity + 1

/-- C3 evaluated at the failing input: an oversized image allocation on an
empty allocator appends no binding to any pool, but it does NOT fail with an
error — `allocate_memory` silently creates one more (empty, useless) pool
and returns a handle whose binding index is `-1`, which no caller checks. -/
theorem claim_C3_oversized_eval :
    ((ImageAllocator.mk 1 []).allocate_memory oversizedReq).2 = ((0 : ℕ), (-1 : ℤ)) ∧
    ((ImageAllocator.mk 1 []).allocate_memory oversizedReq).1.pools.length = 1 ∧
    (((ImageAllocator.mk 1 []).allocate_memory
        oversizedReq).1.pools.getD 0 (mkImagePool 1)).subbuffers = [] := by
  decide

/-- Fresh two-subbuffer state for the C4 counterexample. -/
def c4Base : RenderBuffer :=
  (((mkRenderBuffer 64 16 true).suballoc 16).1.suballoc 16).1

/-- `c4Base` after `delete_subbuffer 0`. -/
def c4Del0 : RenderBuffer := (c4Base.delete_subbuffer 0).toOption.getD c4Base

/-- `c4Del0` after `delete_subbuffer 1`. -/
def c4Del01 : RenderBuffer := (c4Del0.delete_subbuffer 1).toOption.getD c4Del0

/-- C4 counterexample: delete subbuffer 0, then delete subbuffer 1 (a valid
handle at call time).  The next `suballoc` returns `0` — the minimum of the
recycle set — not the just-deleted handle `1`. -/
theorem claim_C4_counterexample :
    c4Base.delete_subbuffer 0 = .ok c4Del0 ∧
    c4Del0.validHandle 1 ∧
    c4Del0.delete_subbuffer 1 = .ok c4Del01 ∧
    (c4Del01.suballoc 16).2 = 0 ∧
    (0 : ℤ) ≠ 1 :=
  ⟨by rfl, by decide, by rfl, by rfl, by decide⟩

/-- The recycle branch of `suballoc`, as one equation. -/
theorem suballoc_recycle_spec (st : RenderBuffer) (s : ℕ)
    (hne : st.recycle.Nonempty) :
    st.suballoc s
      = ({ st with recycle := st.recycle.erase (st.recycle.min' hne) },
         (st.recycle.min' hne : ℤ)) := by
  unfold RenderBuffer.suballoc
  rw [dif_pos hne]

/-- The recycle branch of `suballoc` when the set is a singleton. -/
theorem suballoc_recycle_singleton (st : RenderBuffer) (s : ℕ) (a : ℕ)
    (hr : st.recycle = {a}) :
    st.suballoc s = ({ st with recycle := ∅ }, (a : ℤ)) := by
  have hne : st.recycle.Nonempty := by
    rw [hr]; exact Finset.singleton_nonempty a
  have hmin : st.recycle.min' hne = a := by
    have hmem : st.recycle.min' hne ∈ ({a} : Finset ℕ) := by
      rw [← hr]
      exact Finset.min'_mem st.recycle hne
    exact Finset.mem_singleton.mp hmem
  rw [suballoc_recycle_spec st s hne, hmin, hr, Finset.erase_singleton]

/-- C4 (amended): when the recycle set is empty before the delete, the next
`suballoc s` — for any requested size `s` — returns exactly the deleted
handle, with the record's stale size and offset unchanged (the requested
size is not reconciled with the slot), `filled = 0` on reuse, and the
recycle set empty again. -/
theorem claim_C4_recycle_reuse (st : RenderBuffer) (h : ℤ) (s : ℕ)
    (st1 : RenderBuffer) (hemp : st.recycle = ∅) (hv : st.validHandle h)
    (hdel : st.delete_subbuffer h = .ok st1) :
    (st1.suballoc s).2 = h ∧
    (st1.suballoc s).1.subbuffers = st1.subbuffers ∧
    ((st1.suballoc s).1.recAt h.toNat).size = (st.recAt h.toNat).size ∧
    ((st1.suballoc s).1.recAt h.toNat).offset = (st.recAt h.toNat).offset ∧
    ((st1.suballoc s).1.recAt h.toNat).filled = 0 ∧
    (st1.suballoc s).1.recycle = ∅ := by
  unfold RenderBuffer.delete_subbuffer at hdel
  rw [if_pos hv] at hdel
  obtain rfl : _ = st1 := Except.ok.inj hdel
  rw [suballoc_recycle_singleton _ s h.toNat (by
    show insert h.toNat st.recycle = {h.toNat}
    rw [hemp]
    exact insert_emptyc_eq h.toNat)]
  have hget : ((st.subbuffers.set h.toNat { st.recAt h.toNat with filled := 0 }).getD
      h.toNat default) = { st.recAt h.toNat with filled := 0 } := by
    rw [List.getD_eq_getElem _ _ (by rw [List.length_set]; exact hv.2.1),
      List.getElem_set_self ..]
  refine ⟨Int.toNat_of_nonneg hv.1, rfl, ?_, ?_, ?_, rfl⟩
  · show ((st.subbuffers.set h.toNat { st.recAt h.toNat with filled := 0 }).getD
        h.toNat default).size = (st.recAt h.toNat).size
    rw [hget]
  · show ((st.subbuffers.set h.toNat { st.recAt h.toNat with filled := 0 }).getD
        h.toNat default).offset = (st.recAt h.toNat).offset
    rw [hget]
  · show ((st.subbuffers.set h.toNat { st.recAt h.toNat with filled := 0 }).getD
        h.toNat default).filled = 0
    rw [hget]

/-- Fresh two-subbuffer state for the C4 witness. -/
def c4W : RenderBuffer :=
  (((mkRenderBuffer 96 16 true).suballoc 32).1.suballoc 16).1

/-- `c4W` after `delete_subbuffer 1`. -/
def c4WDel : RenderBuffer := (c4W.delete_subbuffer 1).toOption.getD c4W

theorem shiftedTail_zero (l : List SubBufferData) : shiftedTail 0 l = l := by
  unfold shiftedTail
  induction l with
  | nil => rfl
  | cons r rs ih =>
    simp only [List.map_cons, ih]
    congr 1

theorem set_size_self (r : SubBufferData) : { r with size := r.size } = r := rfl

theorem take_getD_drop (l : List SubBufferData) (b : ℕ) (hb : b < l.length) :
    l.take b ++ [l.getD b default] ++ l.drop (b + 1) = l := by
  rw [List.getD_eq_getElem _ _ hb, List.append_assoc]
  rw [show (([l[b]] ++ l.drop (b + 1)) : List SubBufferData) = l[b] :: l.drop (b + 1)
    from rfl]
  rw [← List.drop_eq_getElem_cons hb, List.take_append_drop]

theorem offAt_add_drop_sizeSum (l : List SubBufferData) (hc : ContigP l) (k : ℕ)
    (hk : k < l.length) :
    offAt l k + ((l.drop k).map SubBufferData.size).sum = lastEnd l := by
  rw [lastEnd_eq_sizeSum l hc, hc k hk]
  have hsplit : sizeSum l = sizeSum (l.take k) + sizeSum (l.drop k) := by
    rw [← sizeSum_append, List.take_append_drop]
  unfold sizeSum at hsplit ⊢
  omega

theorem renderBuffer_eq_of (a b : RenderBuffer) (h1 : a.length = b.length)
    (h2 : a.alignment = b.alignment) (h3 : a.hostVisible = b.hostVisible)
    (h4 : ∀ i, a.mem i = b.mem i) (h5 : a.subbuffers = b.subbuffers)
    (h6 : a.recycle = b.recycle) : a = b := by
  cases a
  cases b
  simp only [RenderBuffer.mk.injEq]
  exact ⟨h1, h2, h3, funext h4, h5, h6⟩

theorem claim_C4_recycle_reuse_witness :
    (c4WDel.suballoc 4096).2 = 1 ∧
    ((c4WDel.suballoc 4096).1.recAt 1).size = (c4W.recAt 1).size ∧
    ((c4WDel.suballoc 4096).1.recAt 1).filled = 0 :=
  ⟨(claim_C4_recycle_reuse c4W 1 4096 c4WDel (by rfl) (by decide) (by rfl)).1,
   (claim_C4_recycle_reuse c4W 1 4096 c4WDel (by rfl) (by decide) (by rfl)).2.2.1,
   (claim_C4_recycle_reuse c4W 1 4096 c4WDel (by rfl) (by decide) (by rfl)).2.2.2.2.1⟩

/-- A successful `copy_to_offset` whose destination fits: no implicit resize,
just the byte overwrite. -/
theorem copy_to_offset_eval_no_resize (src tgt : RenderBuffer) (len srcOff dstOff : ℕ)
    (h1 : ¬(len + srcOff > src.length)) (h2 : ¬(len + dstOff > tgt.length)) :
    RenderBuffer.copy_to_offset src tgt len srcOff dstOff
      = .ok { tgt with mem := (fun i =>
          if dstOff ≤ i ∧ i < dstOff + len then src.mem (srcOff + (i - dstOff))
          else tgt.mem i) } := by
  unfold RenderBuffer.copy_to_offset
  rw [if_neg h1, if_neg h2]

/-- Bouncing a fitting byte range out to a fresh temporary buffer and back to
the same offset is the identity on the buffer. -/
theorem copy_bounce_self (st : RenderBuffer) (al : ℕ) (hvb : Bool) (len off : ℕ)
    (hfit : len + off ≤ st.length) :
    (do
      let temp1 ← st.copy_to_offset (mkRenderBuffer len al hvb) len off 0
      temp1.copy_to_offset st len 0 off) = .ok st := by
  rw [copy_to_offset_eval_no_resize st (mkRenderBuffer len al hvb) len off 0
    (by omega) (by simp [mkRenderBuffer])]
  show RenderBuffer.copy_to_offset _ st len 0 off = .ok st
  rw [copy_to_offset_eval_no_resize _ st len 0 off (by simp [mkRenderBuffer]) (by omega)]
  refine congrArg Except.ok (renderBuffer_eq_of _ _ rfl rfl rfl ?_ rfl rfl)
  intro i
  show (if off ≤ i ∧ i < off + len then _ else st.mem i) = st.mem i
  split_ifs with hi
  · dsimp only
    rw [if_pos (by omega)]
    have h2 : off + (0 + (i - off) - 0) = i := by omega
    rw [h2]
  · rfl

/-- The two-subbuffer state (sizes 32 and 16) used to refute claim C5. -/
def c5Base : RenderBuffer :=
  (((mkRenderBuffer 48 16 true).suballoc 32).1.suballoc 16).1

/-- C5 counterexample: on a live handle of size 32 (alignment 16),
`resuballoc(0, 16)` with `16 ≤ 32` is NOT a no-op — the `size_t` borrow in
`shift = size - buffer_data.size` makes it a shrink: record 0's size becomes
16 and record 1 moves from offset 32 to offset 16. -/
theorem claim_C5_counterexample :
    (c5Base.recAt 0).size = 32 ∧ (16 : ℕ) ≤ 32 ∧ c5Base.validHandle 0 ∧
    (c5Base.resuballoc 0 16).map
      (fun st => ((st.recAt 0).size, (st.recAt 1).offset)) = .ok (16, 16) ∧
    ((16, 16) : ℕ × ℕ) ≠ (32, 32) :=
  ⟨by rfl, by decide, by decide, by rfl, by decide⟩

/-- C5 (amended): `resuballoc(h, s)` leaves every record, the stored bytes
and the backing length unchanged exactly when the rounded request equals the
current record size (`round_up(s, alignment) = size(h)`; in particular when
`s = size(h)`); for smaller rounded requests the record shrinks and later
records shift left instead. -/
theorem claim_C5_noop_resuballoc (st : RenderBuffer) (h : ℤ) (s : ℕ)
    (hinv : Inv st) (hv : st.validHandle h)
    (heq : round_up s st.alignment = (st.subbuffers.getD h.toNat default).size) :
    st.resuballoc h s = .ok st := by
  unfold RenderBuffer.resuballoc
  rw [if_pos hv]
  simp only [RenderBuffer.resuballocCore]
  rw [heq, sub_self]
  have hng : ¬(((st.subbuffers.getLast?.getD default).offset : ℤ)
      + ((st.subbuffers.getLast?.getD default).size : ℤ) + 0 > (st.length : ℤ)) := by
    have h2 := hinv.2
    have h3 := lastEnd_cast st.subbuffers
    omega
  rw [if_neg hng]
  rw [set_size_self, shiftedTail_zero, take_getD_drop st.subbuffers h.toNat hv.2.1]
  have hetas : ({ length := st.length, alignment := st.alignment, hostVisible := st.hostVisible, mem := st.mem, subbuffers := st.subbuffers, recycle := st.recycle } : RenderBuffer) = st := rfl
  rw [hetas]
  by_cases hsl : (List.map SubBufferData.size (List.drop (h.toNat + 1) st.subbuffers)).sum = 0
  · rw [if_neg (by omega)]
  · rw [if_pos hsl]
    have hb1 : h.toNat + 1 < st.subbuffers.length := by
      by_contra hle
      push_neg at hle
      rw [List.drop_eq_nil_of_le hle] at hsl
      simp at hsl
    have hoffsum := offAt_add_drop_sizeSum st.subbuffers hinv.1 (h.toNat + 1) hb1
    have hoffeq : offAt st.subbuffers (h.toNat + 1)
        = (st.subbuffers.getD (h.toNat + 1) default).offset := rfl
    rw [sub_zero, Int.toNat_natCast]
    rw [copy_bounce_self st st.alignment st.hostVisible _ _ (by
      have h2 := hinv.2
      omega)]

/-- The two-equal-subbuffer state for the C5 witness (alignment 16, so a
request of 10 rounds up to the current size 16). -/
def c5W : RenderBuffer :=
  (((mkRenderBuffer 48 16 true).suballoc 16).1.suballoc 16).1

theorem claim_C5_noop_resuballoc_witness :
    Inv c5W ∧ c5W.validHandle 0 ∧
    round_up 10 c5W.alignment = (c5W.subbuffers.getD 0 default).size ∧
    c5W.resuballoc 0 10 = .ok c5W :=
  ⟨by decide, by decide, by decide,
   claim_C5_noop_resuballoc c5W 0 10 (by decide) (by decide) (by decide)⟩

theorem resize_mem (st : RenderBuffer) (x : ℕ) :
    (st.resize x).mem = fun i => if i < st.length then st.mem i else 0 := rfl

theorem bind_ok_eval {α β : Type} (x : α) (f : α → Except RBError β) :
    (do
      let y ← Except.ok x
      f y) = f x := rfl

/-- The shift-correctness scenario of claim C1: three 16-byte subbuffers at
offsets 0/16/32, each holding 16 written bytes, inside a backing of `L`
bytes with contents `m` and an alignment that produced the 16-byte layout. -/
def shiftScenario (L a : ℕ) (m : ℕ → ℕ) (hvb : Bool) : RenderBuffer :=
  { length := L, alignment := a, hostVisible := hvb, mem := m,
    subbuffers := [⟨16, 0, 16⟩, ⟨16, 16, 16⟩, ⟨16, 32, 16⟩], recycle := ∅ }

/-- The concrete instance used to refute claim C1. -/
def c1Cex : RenderBuffer := shiftScenario 64 16 (fun i => i) true

/-- C1 counterexample: growing subbuffer 0 from 16 to 32 bytes shifts the
later subbuffers by `round_up(32) - 16 = 16` bytes, putting them at offsets
32 and 48 — not at 48 and 64 as the claim states — and the byte stored at
offset 32 afterwards is the one previously at offset 16 (not 16 bytes
later). -/
theorem claim_C1_counterexample :
    (c1Cex.resuballoc 0 32).map
      (fun st => ((st.recAt 0).size, (st.recAt 1).offset, (st.recAt 2).offset))
      = .ok (32, 32, 48) ∧
    (c1Cex.resuballoc 0 32).map (fun st => (st.mem 32, st.mem 48)) = .ok (16, 32) ∧
    ((32, 32, 48) : ℕ × ℕ × ℕ) ≠ (32, 48, 64) :=
  ⟨by rfl, by rfl, by decide⟩

/-- C1 (amended): in the three-16-byte-subbuffer scenario (capacity at least
48, alignment dividing 16), `resuballoc(handle_0, 32)` yields
`size(handle_0) = 32`, `offset(handle_1) = 32` and `offset(handle_2) = 48`
(the shift is `round_up(32) - 16 = 16`, not 32), and the 16 bytes previously
at offset 16 are afterwards at offset 32 and those previously at offset 32
are afterwards at offset 48, byte-for-byte identical. -/
theorem claim_C1_shift (L a : ℕ) (m : ℕ → ℕ) (hvb : Bool) (hL : 48 ≤ L)
    (ha : a ∣ 16) :
    ∃ st', (shiftScenario L a m hvb).resuballoc 0 32 = .ok st'
      ∧ st'.subbuffers = [⟨32, 0, 16⟩, ⟨16, 32, 16⟩, ⟨16, 48, 16⟩]
      ∧ (∀ i, i < 16 → st'.mem (32 + i) = m (16 + i))
      ∧ (∀ i, i < 16 → st'.mem (48 + i) = m (32 + i)) := by
  have h32 : round_up 32 a = 32 := round_up_eq_of_dvd 32 a (dvd_trans ha (by norm_num))
  have h64 : round_up 64 a = 64 := round_up_eq_of_dvd 64 a (dvd_trans ha (by norm_num))
  have hv : (shiftScenario L a m hvb).validHandle 0 := by
    refine ⟨le_refl _, ?_, ?_⟩ <;> simp [shiftScenario]
  unfold RenderBuffer.resuballoc
  rw [if_pos hv]
  simp only [RenderBuffer.resuballocCore, shiftScenario]
  norm_num [h32]
  have hst : shiftedTail 16 [(⟨16, 16, 16⟩ : SubBufferData), ⟨16, 32, 16⟩]
      = [(⟨16, 32, 16⟩ : SubBufferData), ⟨16, 48, 16⟩] := by rfl
  rcases Nat.lt_or_ge L 64 with hL64 | hL64
  · simp only [if_pos hL64, resize_subbuffers, resize_length, resize_alignment,
      resize_hostVisible, resize_mem]
    norm_num [hst, Int.toNat_ofNat]
    rw [show Int.toNat 64 = 64 by rfl, show Int.toNat 16 = 16 by rfl, h64]
    rw [copy_to_offset_eval_no_resize _ (mkRenderBuffer 32 a hvb) 32 16 0
      (by norm_num) (by simp [mkRenderBuffer])]
    rw [bind_ok_eval]
    rw [copy_to_offset_eval_no_resize _ _ 32 0 32 (by simp [mkRenderBuffer])
      (by norm_num)]
    refine ⟨_, rfl, rfl, ?_, ?_⟩
    · intro i hi
      dsimp only
      rw [if_pos (by omega), if_pos (by omega), if_pos (by omega)]
      congr 1
      omega
    · intro i hi
      dsimp only
      rw [if_pos (by omega), if_pos (by omega), if_pos (by omega)]
      congr 1
      omega
  · simp only [if_neg (not_lt.mpr hL64)]
    norm_num [hst, Int.toNat_ofNat]
    rw [show Int.toNat 16 = 16 by rfl]
    rw [copy_to_offset_eval_no_resize _ (mkRenderBuffer 32 a hvb) 32 16 0
      (by norm_num; omega) (by simp [mkRenderBuffer])]
    rw [bind_ok_eval]
    rw [copy_to_offset_eval_no_resize _ _ 32 0 32 (by simp [mkRenderBuffer])
      (by norm_num; omega)]
    refine ⟨_, rfl, rfl, ?_, ?_⟩
    · intro i hi
      dsimp only
      rw [if_pos (by omega), if_pos (by omega)]
      congr 1
      omega
    · intro i hi
      dsimp only
      rw [if_pos (by omega), if_pos (by omega)]
      congr 1
      omega

theorem claim_C1_shift_witness :
    ∃ st', (shiftScenario 80 8 (fun i => i + 7) true).resuballoc 0 32 = .ok st'
      ∧ st'.subbuffers = [⟨32, 0, 16⟩, ⟨16, 32, 16⟩, ⟨16, 48, 16⟩]
      ∧ (∀ i, i < 16 → st'.mem (32 + i) = (16 + i) + 7)
      ∧ (∀ i, i < 16 → st'.mem (48 + i) = (32 + i) + 7) :=
  claim_C1_shift 80 8 (fun i => i + 7) true (by norm_num) (by norm_num)

end VkAlloc
